import Mathlib

/-!
Verification development for the DomMover drag-and-drop reordering library
(src/dom-mover.js). The DOM is modelled as a store of element nodes with
parent pointers, ordered child lists, class lists, attributes and data
attributes; only element nodes are modelled, so `nextSibling` and
`nextElementSibling` coincide. Event handlers are embedded as functions on
an explicit instance state; paths that dereference `null` in JavaScript
return `Except.error`. CSS selectors are modelled by a small grammar
(type, class, id and attribute-presence compounds, comma-separated lists)
covering every selector the library builds; whitespace and combinators are
not part of the grammar, which matches full CSS on the strings in play
(`"[object …]"` interpolations are invalid selectors in both).
-/

set_option maxRecDepth 4000

abbrev NodeId := Nat

/-- Element directly following the first occurrence of `x` in a sibling list. -/
def nextAfter : List NodeId → NodeId → Option NodeId
  | [], _ => none
  | [_], _ => none
  | a :: b :: t, x => if a = x then some b else nextAfter (b :: t) x

/-- Helper for `prevBefore`: scans with the previously seen element. -/
def prevGo (p : NodeId) : List NodeId → NodeId → Option NodeId
  | [], _ => none
  | a :: t, x => if a = x then some p else prevGo a t x

/-- Element directly preceding the first occurrence of `x` in a sibling list. -/
def prevBefore : List NodeId → NodeId → Option NodeId
  | [], _ => none
  | a :: t, x => if a = x then none else prevGo a t x

/-- Insert `n` before the first occurrence of `r`; appends if `r` is absent. -/
def insertAt : List NodeId → NodeId → NodeId → List NodeId
  | [], n, _ => [n]
  | a :: t, n, r => if a = r then n :: a :: t else a :: insertAt t n r

/-- Characters allowed to start a CSS identifier (simplified). -/
def isIdentStart (c : Char) : Bool := c.isAlpha || c = '-' || c = '_'

/-- Characters allowed inside a CSS identifier (simplified). -/
def isIdentChar (c : Char) : Bool := c.isAlphanum || c = '-' || c = '_'

/-- Longest identifier-character run at the head of the input. -/
def takeIdent : List Char → List Char × List Char
  | [] => ([], [])
  | c :: cs =>
    if isIdentChar c then
      let p := takeIdent cs
      (c :: p.1, p.2)
    else ([], c :: cs)

/-- Parse one CSS identifier. -/
def parseIdent : List Char → Option (String × List Char)
  | [] => none
  | c :: cs =>
    if isIdentStart c then
      let p := takeIdent cs
      some (String.mk (c :: p.1), p.2)
    else none

/-- One simple selector: type, `.class`, `#id`, or `[attribute]`. -/
inductive SimpleSel
  | typ (s : String)
  | cls (s : String)
  | idSel (s : String)
  | attrSel (s : String)
deriving DecidableEq, Repr

/-- Parse one simple selector. -/
def parseSimple : List Char → Option (SimpleSel × List Char)
  | '.' :: cs => (parseIdent cs).map fun p => (SimpleSel.cls p.1, p.2)
  | '#' :: cs => (parseIdent cs).map fun p => (SimpleSel.idSel p.1, p.2)
  | '[' :: cs =>
    match parseIdent cs with
    | some (s, ']' :: r) => some (SimpleSel.attrSel s, r)
    | _ => none
  | l => (parseIdent l).map fun p => (SimpleSel.typ p.1, p.2)

/-- Parse a run of simple selectors forming one compound selector. -/
def parseSimples : Nat → List Char → List SimpleSel × List Char
  | 0, l => ([], l)
  | fuel + 1, l =>
    match parseSimple l with
    | some (s, r) =>
      let p := parseSimples fuel r
      (s :: p.1, p.2)
    | none => ([], l)

/-- Parse a compound selector (at least one simple selector). -/
def parseCompound (l : List Char) : Option (List SimpleSel × List Char) :=
  match parseSimple l with
  | none => none
  | some (s, r) =>
    let p := parseSimples r.length r
    some (s :: p.1, p.2)

/-- Parse a comma-separated selector list; any leftover input is invalid. -/
def parseSelListAux : Nat → List Char → Option (List (List SimpleSel))
  | 0, _ => none
  | fuel + 1, l =>
    match parseCompound l with
    | none => none
    | some (c, []) => some [c]
    | some (c, ',' :: r) => (parseSelListAux fuel r).map fun cs => c :: cs
    | some _ => none

/-- Parse a full selector string. `none` models a thrown SyntaxError. -/
def parseSel (s : String) : Option (List (List SimpleSel)) :=
  parseSelListAux (s.data.length + 1) s.data

/-- ASCII uppercase of one character (structurally computable stand-in for
Char.toUpper on the ASCII tag and selector strings in play). -/
def upChar (c : Char) : Char :=
  if 'a' ≤ c ∧ c ≤ 'z' then Char.ofNat (c.toNat - 32) else c

/-- ASCII uppercase of a string, as toUpperCase acts on tag names. -/
def upperStr (s : String) : String := String.mk (s.data.map upChar)

/-- A JavaScript value, as far as the callback contract inspects it. -/
inductive JsVal
  | vBool (b : Bool)
  | vUndefined
  | vNull
  | vStr (s : String)
  | vNum (n : Int)
deriving DecidableEq, Repr

/-- The constructor argument: a selector string, an Element, a NodeList, or
an Array of elements. Element variants carry the DOM interface name used by
JavaScript string conversion (for example "HTMLLIElement"). -/
inductive ElementOrSelector
  | selector (s : String)
  | element (e : NodeId) (iface : String)
  | nodeList (l : List NodeId)
  | arrayOf (l : List (NodeId × String))
deriving Repr

/-- Array.prototype.toString joins element strings with commas. -/
def joinComma : List String → String
  | [] => ""
  | [a] => a
  | a :: t => a ++ "," ++ joinComma t

/-- JavaScript string conversion of the constructor argument, as used by the
template literal in handleDragOver and handleDragEnter. -/
def jsToString : ElementOrSelector → String
  | .selector s => s
  | .element _ iface => "[object " ++ iface ++ "]"
  | .nodeList _ => "[object NodeList]"
  | .arrayOf l => joinComma (l.map fun p => "[object " ++ p.2 ++ "]")

/-- The document: element nodes with parent pointers, ordered child lists,
class lists, attributes and data attributes. `allNodes` is document order,
`body` is `document.body`, `height` bounds every ancestor chain, and
`nextFresh` feeds `document.createElement`. -/
structure Dom where
  parentOf : NodeId → Option NodeId
  childrenOf : NodeId → List NodeId
  classesOf : NodeId → List String
  tagOf : NodeId → String
  attrOf : NodeId → String → Option String
  dataOf : NodeId → String → Option String
  allNodes : List NodeId
  body : NodeId
  height : Nat
  nextFresh : NodeId

def Dom.setChildren (d : Dom) (p : NodeId) (l : List NodeId) : Dom :=
  { d with childrenOf := fun q => if q = p then l else d.childrenOf q }

def Dom.setParent (d : Dom) (n : NodeId) (po : Option NodeId) : Dom :=
  { d with parentOf := fun m => if m = n then po else d.parentOf m }

/-- classList.add: appends the class if not already present. -/
def Dom.classAdd (d : Dom) (n : NodeId) (c : String) : Dom :=
  { d with classesOf := fun m =>
      if m = n then
        if (d.classesOf n).contains c then d.classesOf n else d.classesOf n ++ [c]
      else d.classesOf m }

/-- classList.remove: drops every occurrence of the class. -/
def Dom.classRemove (d : Dom) (n : NodeId) (c : String) : Dom :=
  { d with classesOf := fun m =>
      if m = n then (d.classesOf n).filter (fun x => x != c) else d.classesOf m }

def Dom.setAttr (d : Dom) (n : NodeId) (a v : String) : Dom :=
  { d with attrOf := fun m b => if m = n ∧ b = a then some v else d.attrOf m b }

/-- Detach a node from its parent (no-op when already detached). -/
def Dom.removeFromParent (d : Dom) (n : NodeId) : Dom :=
  match d.parentOf n with
  | none => d
  | some p =>
    ((d.setChildren p ((d.childrenOf p).filter (fun m => m != n))).setParent n none)

/-- Node.insertBefore(newNode, referenceChild): first detaches `n`, then
inserts it into `p`'s children before `ref` (append when `ref` is null);
a reference that is not a child raises NotFoundError. -/
def Dom.insertBefore (d : Dom) (p n : NodeId) (ref : Option NodeId) : Except String Dom :=
  let d1 := d.removeFromParent n
  match ref with
  | none => .ok ((d1.setChildren p (d1.childrenOf p ++ [n])).setParent n (some p))
  | some r =>
    if (d1.childrenOf p).contains r then
      .ok ((d1.setChildren p (insertAt (d1.childrenOf p) n r)).setParent n (some p))
    else .error "NotFoundError"

def Dom.appendChild (d : Dom) (p n : NodeId) : Dom :=
  let d1 := d.removeFromParent n
  (d1.setChildren p (d1.childrenOf p ++ [n])).setParent n (some p)

/-- document.createElement: allocates a fresh detached node of the given tag. -/
def Dom.createElement (d : Dom) (tag : String) : Dom × NodeId :=
  let n := d.nextFresh
  ({ d with
      nextFresh := n + 1
      allNodes := d.allNodes ++ [n]
      tagOf := fun m => if m = n then tag else d.tagOf m
      classesOf := fun m => if m = n then [] else d.classesOf m
      parentOf := fun m => if m = n then none else d.parentOf m
      childrenOf := fun m => if m = n then [] else d.childrenOf m }, n)

/-- The inclusive ancestor chain of a node, bounded by fuel. -/
def chainUp (d : Dom) : Nat → Option NodeId → List NodeId
  | 0, _ => []
  | _, none => []
  | fuel + 1, some x => x :: chainUp d fuel (d.parentOf x)

/-- Node.contains: true iff `b` is `a` or a descendant of `a`. -/
def containsNode (d : Dom) (a b : NodeId) : Bool :=
  (chainUp d d.height (some b)).contains a

/-- previousElementSibling. -/
def prevElemSib (d : Dom) (n : NodeId) : Option NodeId :=
  match d.parentOf n with
  | none => none
  | some p => prevBefore (d.childrenOf p) n

/-- nextElementSibling (equal to nextSibling in this element-only model). -/
def nextElemSib (d : Dom) (n : NodeId) : Option NodeId :=
  match d.parentOf n with
  | none => none
  | some p => nextAfter (d.childrenOf p) n

/-- Does a node match one simple selector. -/
def matchesSimple (d : Dom) (n : NodeId) : SimpleSel → Bool
  | .typ s => d.tagOf n = upperStr s
  | .cls s => (d.classesOf n).contains s
  | .idSel s => d.attrOf n "id" = some s
  | .attrSel s => (d.attrOf n s).isSome

def matchesCompound (d : Dom) (n : NodeId) (c : List SimpleSel) : Bool :=
  c.all (matchesSimple d n)

def matchesSelList (d : Dom) (n : NodeId) (sels : List (List SimpleSel)) : Bool :=
  sels.any (matchesCompound d n)

/-- Element.matches; an unparsable selector throws. -/
def matchesSel (d : Dom) (n : NodeId) (s : String) : Except String Bool :=
  match parseSel s with
  | none => .error "SyntaxError"
  | some sels => .ok (matchesSelList d n sels)

/-- Element.closest: nearest inclusive ancestor matching the selector list. -/
def closestIn (d : Dom) (target : NodeId) (sels : List (List SimpleSel)) : Option NodeId :=
  (chainUp d d.height (some target)).find? (fun n => matchesSelList d n sels)

/-- document.querySelector: first match in document order. -/
def querySelector (d : Dom) (s : String) : Except String (Option NodeId) :=
  match parseSel s with
  | none => .error "SyntaxError"
  | some sels => .ok (d.allNodes.find? (fun n => matchesSelList d n sels))

/-- document.querySelectorAll, as a list in document order. -/
def querySelectorAll (d : Dom) (s : String) : Except String (List NodeId) :=
  match parseSel s with
  | none => .error "SyntaxError"
  | some sels => .ok (d.allNodes.filter (fun n => matchesSelList d n sels))

/-- A data record extracted by getItemData: key-value pairs in the order of
`options.dataAttributes`; a missing data attribute yields undefined (`none`). -/
abbrev ItemData := List (String × Option String)

/-- The five arguments passed to both beforeDrop and drop. -/
structure DropArgs where
  dragged : NodeId
  prevElem : Option NodeId
  draggedData : Option ItemData
  beforeData : Option ItemData
  nextElem : Option NodeId
deriving DecidableEq, Repr

/-- `options.pickup`. -/
structure PickupOptions where
  parent : Option String
  disabledClass : String
  addClass : String
  removeClass : String

/-- `options.drop`. -/
structure DropOptions where
  parent : Option String
  addClass : String
  removeClass : String

/-- `options.callbacks`: `none` models an unset slot (the source guards each
invocation with a typeof-function check). Only beforeDrop's return value is
inspected, so only it carries a result. -/
structure Callbacks where
  pickup : Option Unit
  drag : Option Unit
  drop : Option Unit
  beforeDrop : Option (DropArgs → JsVal)

/-- The merged option object (DomMover.defaults shape). -/
structure Options where
  pickup : PickupOptions
  drop : DropOptions
  callbacks : Callbacks
  dataAttributes : List String
  dropIndicatorClass : String
  dropIndicator : Bool
  dragImageClass : String
  placeholderClass : String
  debug : Bool
  allowDuplicateCallbacks : Bool

/-- DomMover.defaults. -/
def defaults : Options where
  pickup := { parent := none, disabledClass := "sortable-disabled",
              addClass := "sortable-dragging", removeClass := "" }
  drop := { parent := none, addClass := "", removeClass := "" }
  callbacks := { pickup := none, drag := none, drop := none, beforeDrop := none }
  dataAttributes := ["id", "sort"]
  dropIndicatorClass := "sortable-drop-indicator"
  dropIndicator := true
  dragImageClass := "sortable-drag-image"
  placeholderClass := "sortable-placeholder"
  debug := false
  allowDuplicateCallbacks := false

/-- One DomMover instance: the document plus every mutable field of the
class. `boundAt` records the node the five listeners were bound to
(`none` models an inert instance that bound no listeners). -/
structure DMState where
  dom : Dom
  elements : List NodeId
  elementOrSelector : ElementOrSelector
  instanceId : String
  options : Options
  boundAt : Option NodeId
  draggedItem : Option NodeId
  draggedItemData : Option ItemData
  placeholder : Option NodeId
  tagNameCopy : Option String
  lastMouseY : Int
  lastDraggedOver : Option NodeId
  lastMouseDirection : Option String

/-- addClasses: splits on spaces and classList.adds each token; skipped
entirely when the string is falsy. A null element throws only when the
class string is non-empty (the dereference is inside the forEach). -/
def addClasses (d : Dom) (el : Option NodeId) (classes : String) : Except String Dom :=
  if classes = "" then .ok d
  else
    match el with
    | none => .error "TypeError"
    | some e => .ok ((classes.splitOn " ").foldl (fun d c => d.classAdd e c) d)

/-- removeClasses, mirroring addClasses with classList.remove. -/
def removeClasses (d : Dom) (el : Option NodeId) (classes : String) : Except String Dom :=
  if classes = "" then .ok d
  else
    match el with
    | none => .error "TypeError"
    | some e => .ok ((classes.splitOn " ").foldl (fun d c => d.classRemove e c) d)

/-- getItemData: reads each configured data attribute off the element. -/
def getItemData (d : Dom) (item : NodeId) (attrs : List String) : ItemData :=
  attrs.map fun a => (a, d.dataOf item a)

/-- isValidSortableElement: tag kinds that cannot be sorted. -/
def isValidSortableElement (tagName : String) : Bool :=
  !(["TBODY", "THEAD", "TFOOT", "CAPTION", "COLGROUP", "COL",
     "HTML", "HEAD", "BODY"].contains tagName)

/-- The upward walk in isDraggable: returns false as soon as an ancestor
carries the disabled class; stops at a configured pickup parent match or at
document.body. Fuel bounds the chain as in `chainUp`. -/
def disabledWalk (st : DMState) : Nat → Option NodeId → Except String Bool
  | _, none => .ok true
  | 0, some _ => .ok true
  | fuel + 1, some cur => do
    if (st.dom.classesOf cur).contains st.options.pickup.disabledClass then
      return false
    let hitParent ←
      match st.options.pickup.parent with
      | some ps => matchesSel st.dom cur ps
      | none => pure false
    if hitParent then return true
    if cur = st.dom.body then return true
    disabledWalk st fuel (st.dom.parentOf cur)

/-- isWithinParent: vacuously true without a parent selector (or when the
selector matches nothing); otherwise containment plus the instance marker. -/
def isWithinParent (st : DMState) (element : NodeId) (ty : String) : Except String Bool :=
  let parentSelector := if ty = "pickup" then st.options.pickup.parent else st.options.drop.parent
  match parentSelector with
  | none => .ok true
  | some sel => do
    let po ← querySelector st.dom sel
    match po with
    | none => .ok true
    | some p =>
      .ok (containsNode st.dom p element && (st.dom.classesOf element).contains st.instanceId)

/-- isDraggable: the disabled-ancestor walk, then isWithinParent. -/
def isDraggable (st : DMState) (element : NodeId) : Except String Bool := do
  let noDisabled ← disabledWalk st st.dom.height (some element)
  if noDisabled = false then return false
  isWithinParent st element "pickup"

/-- The upward walk of getParentElement when no parent selector is set:
the first ancestor of the first element that contains every managed element,
each of which must also carry the instance marker. -/
def gpeLoop (d : Dom) (els : List NodeId) (iid : String) : Nat → Option NodeId → Option NodeId
  | 0, _ => none
  | _, none => none
  | fuel + 1, some cp =>
    if els.all (fun el => containsNode d cp el && (d.classesOf el).contains iid) then
      some cp
    else gpeLoop d els iid fuel (d.parentOf cp)

/-- getParentElement: explicit parent selector via querySelector, else the
common-ancestor walk from the first element's parent; null if none. -/
def getParentElement (st : DMState) (ty : String) : Except String (Option NodeId) :=
  let parentSelector := if ty = "pickup" then st.options.pickup.parent else st.options.drop.parent
  match parentSelector with
  | some sel => querySelector st.dom sel
  | none =>
    .ok (match st.elements with
         | [] => none
         | e0 :: _ => gpeLoop st.dom st.elements st.instanceId st.dom.height (st.dom.parentOf e0))

/-- bindEvents: resolves the pickup delegation root and binds the five drag
listeners there; with no valid root it only logs and binds nothing. -/
def bindEvents (st : DMState) : Except String DMState := do
  let po ← getParentElement st "pickup"
  match po with
  | none => .ok st
  | some p => .ok { st with boundAt := some p }

/-- init: binds events first, and only then tags every managed element with
the draggable attribute and the instance marker (source order preserved). -/
def init (st : DMState) : Except String DMState := do
  let st1 ← bindEvents st
  .ok { st1 with
        dom := st1.elements.foldl
          (fun d e => (d.setAttr e "draggable" "true").classAdd e st1.instanceId) st1.dom }

/-- Constructor element resolution: selector string via querySelectorAll,
an Element wrapped in a singleton, a NodeList or Array copied as-is. -/
def resolveElements (d : Dom) : ElementOrSelector → Except String (List NodeId)
  | .selector s => querySelectorAll d s
  | .element e _ => .ok [e]
  | .nodeList l => .ok l
  | .arrayOf l => .ok (l.map fun p => p.1)

/-- The constructor for a valid argument: field initialisation, element
resolution, then init. `iid` stands for the freshly generated random
instance id. -/
def construct (d : Dom) (eos : ElementOrSelector) (opts : Options) (iid : String) :
    Except String DMState := do
  let els ← resolveElements d eos
  init { dom := d, elements := els, elementOrSelector := eos, instanceId := iid,
         options := opts, boundAt := none, draggedItem := none, draggedItemData := none,
         placeholder := none, tagNameCopy := none, lastMouseY := 0,
         lastDraggedOver := none, lastMouseDirection := none }

/-- The interpolated template literal of handleDragOver and handleDragEnter. -/
def interpSel (st : DMState) : String :=
  jsToString st.elementOrSelector ++ "." ++ st.instanceId

/-- e.target.closest on the interpolated selector: the element below the
pointer; an unparsable selector throws, as in the browser. -/
def resolveBelow (st : DMState) (target : NodeId) : Except String (Option NodeId) :=
  match parseSel (interpSel st) with
  | none => .error "SyntaxError"
  | some sels => .ok (closestIn st.dom target sels)

/-- The source's direction inference: up on a strictly smaller clientY than
the stored one, down otherwise. -/
def inferDir (st : DMState) (clientY : Int) : String :=
  if clientY < st.lastMouseY then "up" else "down"

/-- The placeholder-movement block of handleDragOver (strictly greater
clientY inserts after the element below, strictly smaller inserts before,
equal does nothing); null dereferences throw. The insertion reference is
read before insertBefore runs, as in JavaScript evaluation order. -/
def dragOverMove (st : DMState) (cme : NodeId) (clientY : Int) : Except String Dom :=
  if st.lastMouseY < clientY then
    if nextElemSib st.dom cme != st.placeholder then
      match st.dom.parentOf cme, st.placeholder with
      | none, _ => .error "TypeError"
      | some _, none => .error "TypeError"
      | some par, some ph => st.dom.insertBefore par ph (nextElemSib st.dom cme)
    else .ok st.dom
  else if clientY < st.lastMouseY then
    if prevElemSib st.dom cme != st.placeholder then
      match st.dom.parentOf cme, st.placeholder with
      | none, _ => .error "TypeError"
      | some _, none => .error "TypeError"
      | some par, some ph => st.dom.insertBefore par ph (some cme)
    else .ok st.dom
  else .ok st.dom

/-- Observable effects of one dragover tick: whether the drag callback was
dispatched, and the placeholderPosition value it would receive. -/
structure OverEffects where
  fired : Bool
  placeholderPosition : String
deriving DecidableEq, Repr

/-- handleDragOver: resolve the element below; ignore the tick when there is
none or it is the dragged item or the placeholder; infer the direction; move
the placeholder; record clientY; compute placeholderPosition; dispatch the
drag callback under the duplicate-suppression condition; then store the
element below and the direction for the next tick. -/
def handleDragOver (st : DMState) (target : NodeId) (clientY : Int) :
    Except String (DMState × OverEffects) := do
  let cmeo ← resolveBelow st target
  match cmeo with
  | none => .ok (st, { fired := false, placeholderPosition := "" })
  | some cme =>
    if some cme = st.draggedItem ∨ some cme = st.placeholder then
      .ok (st, { fired := false, placeholderPosition := "" })
    else do
      let mouseDirection := inferDir st clientY
      let dom1 ← dragOverMove st cme clientY
      match st.placeholder with
      | none => .error "TypeError"
      | some ph =>
        let placeholderPosition :=
          if prevElemSib dom1 ph = some cme then "top" else "bottom"
        let condition := st.options.allowDuplicateCallbacks
          || !(some cme = st.lastDraggedOver : Bool)
          || !(some mouseDirection = st.lastMouseDirection : Bool)
        let fired := condition && st.options.callbacks.drag.isSome
        let st1 := { st with
          dom := dom1
          lastMouseY := clientY
          lastDraggedOver := some cme
          lastMouseDirection := some mouseDirection }
        .ok (st1, { fired := fired, placeholderPosition := placeholderPosition })

/-- handleDragEnter: defensive re-validation only; no mutation on success. -/
def handleDragEnter (st : DMState) (target : NodeId) : Except String DMState := do
  let ok1 ← isDraggable st target
  if ok1 = false then return st
  let _ ← resolveBelow st target
  return st

/-- Observable effects of handleDragStart. -/
structure StartEffects where
  prevented : Bool
  pickupFired : Bool
  pickupPrev : Option NodeId
  pickupNext : Option NodeId
deriving DecidableEq, Repr

/-- createPlaceholder: an element of the copied tag; a TR additionally gets
one TD child whose colspan is the dragged element's child count (minimum 1);
then the placeholder class, the instance marker, and, when the drop
indicator is enabled, the indicator class. The TD's whitespace text node is
not modelled (text nodes are outside the model). -/
def createPlaceholder (st : DMState) : DMState :=
  let tag := st.tagNameCopy.getD "NULL"
  let p1 := st.dom.createElement tag
  let d2 :=
    if tag = "TR" then
      let p2 := p1.1.createElement "TD"
      let colCount :=
        match st.draggedItem with
        | some it =>
          if (p1.1.childrenOf it).length = 0 then 1 else (p1.1.childrenOf it).length
        | none => 1
      ((p2.1.setAttr p2.2 "colspan" (toString colCount)).appendChild p1.2 p2.2)
    else p1.1
  let d3 := (d2.classAdd p1.2 st.options.placeholderClass).classAdd p1.2 st.instanceId
  let d4 := if st.options.dropIndicator then d3.classAdd p1.2 st.options.dropIndicatorClass else d3
  { st with dom := d4, placeholder := some p1.2 }

/-- setCustomDragImage: clones the dragged element (modelled as tag and
class-list copy), decorates it, and appends it to document.body for the
native drag-image capture. The requestAnimationFrame removal is deferred
past the synchronous handler and is not part of this step. -/
def setCustomDragImage (st : DMState) : DMState :=
  match st.draggedItem with
  | none => st
  | some it =>
    let p1 := st.dom.createElement (st.dom.tagOf it)
    let d2 := { p1.1 with
                classesOf := fun m => if m = p1.2 then st.dom.classesOf it else p1.1.classesOf m }
    let d3 := (d2.classAdd p1.2 st.options.dragImageClass).classAdd p1.2 st.instanceId
    { st with dom := d3.appendChild st.dom.body p1.2 }

/-- handleDragStart: reject silently when isDraggable fails; capture the
dragged item and its uppercased tag; cancel the native gesture on a
structurally invalid tag (leaving those two fields set, as the source
does); otherwise extract data, apply pickup decorations, fire the pickup
callback with the pre-drag neighbours, build the placeholder and drag image. -/
def handleDragStart (st : DMState) (target : NodeId) :
    Except String (DMState × StartEffects) := do
  let ok1 ← isDraggable st target
  if ok1 = false then
    return (st, { prevented := false, pickupFired := false,
                  pickupPrev := none, pickupNext := none })
  let st := { st with draggedItem := some target,
                      tagNameCopy := some (upperStr (st.dom.tagOf target)) }
  if !(isValidSortableElement (upperStr (st.dom.tagOf target))) then
    return (st, { prevented := true, pickupFired := false,
                  pickupPrev := none, pickupNext := none })
  let st := { st with
              draggedItemData := some (getItemData st.dom target st.options.dataAttributes) }
  let dom1 ← addClasses st.dom (some target) st.options.pickup.addClass
  let dom2 ← removeClasses dom1 (some target) st.options.pickup.removeClass
  let st := { st with dom := dom2 }
  let prevElem := prevElemSib st.dom target
  let nextElem := nextElemSib st.dom target
  let pickupFired := st.options.callbacks.pickup.isSome
  let st := createPlaceholder st
  let st := setCustomDragImage st
  return (st, { prevented := false, pickupFired := pickupFired,
                pickupPrev := prevElem, pickupNext := nextElem })

/-- handleDragEnd: remove the pickup decoration from the dragged item,
detach the placeholder when attached, then clear the dragged item, its
data, the placeholder, the tag copy, the last element below and the last
direction. `lastMouseY` is not touched by the source. -/
def handleDragEnd (st : DMState) : Except String DMState := do
  let dom1 ← removeClasses st.dom st.draggedItem st.options.pickup.addClass
  let dom2 :=
    match st.placeholder with
    | some ph =>
      match dom1.parentOf ph with
      | some _ => dom1.removeFromParent ph
      | none => dom1
    | none => dom1
  .ok { st with
        dom := dom2
        draggedItem := none
        draggedItemData := none
        placeholder := none
        tagNameCopy := none
        lastDraggedOver := none
        lastMouseDirection := none }

/-- Observable effects of handleDrop: the argument tuples each callback was
invoked with (`none` when not invoked). -/
structure DropEffects where
  beforeDropCalledWith : Option DropArgs
  dropCalledWith : Option DropArgs
deriving DecidableEq, Repr

/-- handleDrop: no-op without an active dragged item; read the placeholder's
neighbours and the previous sibling's data; let beforeDrop veto with an
exact false; otherwise move the dragged item immediately before the
placeholder and fire drop with the same five arguments. -/
def handleDrop (st : DMState) : Except String (DMState × DropEffects) := do
  match st.draggedItem with
  | none => return (st, { beforeDropCalledWith := none, dropCalledWith := none })
  | some dragged =>
    match st.placeholder with
    | none => .error "TypeError"
    | some ph =>
      let prevElem := prevElemSib st.dom ph
      let nextElem := nextElemSib st.dom ph
      let beforeElementData :=
        prevElem.map fun p => getItemData st.dom p st.options.dataAttributes
      let args : DropArgs :=
        { dragged := dragged, prevElem := prevElem, draggedData := st.draggedItemData,
          beforeData := beforeElementData, nextElem := nextElem }
      let beforeCalled :=
        match st.options.callbacks.beforeDrop with
        | none => none
        | some _ => some args
      let vetoed :=
        match st.options.callbacks.beforeDrop with
        | none => false
        | some f => f args = JsVal.vBool false
      if vetoed then
        return (st, { beforeDropCalledWith := beforeCalled, dropCalledWith := none })
      else
        match st.dom.parentOf ph with
        | none => .error "TypeError"
        | some par => do
          let dom1 ← st.dom.insertBefore par dragged (some ph)
          let dropCalled := if st.options.callbacks.drop.isSome then some args else none
          return ({ st with dom := dom1 },
                  { beforeDropCalledWith := beforeCalled, dropCalledWith := dropCalled })

/-- Convenience: defaults with the pickup and drag callbacks set. -/
def optsWithDrag : Options :=
  { defaults with callbacks := { pickup := none, drag := some (), drop := none,
                                 beforeDrop := none } }

/-- C1 fixture document: BODY 3 contains UL 0 containing LI 1 and LI 2;
no node carries any class. -/
def c1Dom : Dom where
  parentOf := fun n => if n = 0 then some 3 else if n = 1 ∨ n = 2 then some 0 else none
  childrenOf := fun n => if n = 3 then [0] else if n = 0 then [1, 2] else []
  classesOf := fun _ => []
  tagOf := fun n => if n = 3 then "BODY" else if n = 0 then "UL" else "LI"
  attrOf := fun _ _ => none
  dataOf := fun _ _ => none
  allNodes := [3, 0, 1, 2]
  body := 3
  height := 5
  nextFresh := 50

/-- C2 fixture: instance with no parent selector over one unmarked LI. -/
def c2St : DMState where
  dom := c1Dom
  elements := [1, 2]
  elementOrSelector := .selector "li"
  instanceId := "dm2"
  options := defaults
  boundAt := none
  draggedItem := none
  draggedItemData := none
  placeholder := none
  tagNameCopy := none
  lastMouseY := 0
  lastDraggedOver := none
  lastMouseDirection := none

/-- A mid-gesture fixture document: UL 0 holds the placeholder 9 and the
managed LIs 1, 2 and the dragged LI 3, in order [9, 1, 2, 3]. -/
def gestureDom : Dom where
  parentOf := fun n => if n = 0 then some 10 else if n = 1 ∨ n = 2 ∨ n = 3 ∨ n = 9 then some 0 else none
  childrenOf := fun n => if n = 10 then [0] else if n = 0 then [9, 1, 2, 3] else []
  classesOf := fun n =>
    if n = 9 then ["sortable-placeholder", "dma"]
    else if n = 1 ∨ n = 2 ∨ n = 3 then ["dma"] else []
  tagOf := fun n => if n = 10 then "BODY" else if n = 0 then "UL" else "LI"
  attrOf := fun _ _ => none
  dataOf := fun n a => if n = 2 ∧ a = "id" then some "two" else none
  allNodes := [10, 0, 9, 1, 2, 3]
  body := 10
  height := 5
  nextFresh := 60

/-- A mid-gesture instance state over `gestureDom` dragging LI 3. -/
def gestureSt : DMState where
  dom := gestureDom
  elements := [1, 2, 3]
  elementOrSelector := .selector "li"
  instanceId := "dma"
  options := optsWithDrag
  boundAt := some 0
  draggedItem := some 3
  draggedItemData := some [("id", none), ("sort", none)]
  placeholder := some 9
  tagNameCopy := some "LI"
  lastMouseY := 5
  lastDraggedOver := none
  lastMouseDirection := none

/-- C4 fixture: the same gesture with lastMouseY 0 for three down ticks. -/
def c4St : DMState := { gestureSt with lastMouseY := 0 }

/-- C6 fixture document: BODY 0 holds TABLE 1 holding TBODY 2. -/
def c6Dom : Dom where
  parentOf := fun n => if n = 1 then some 0 else if n = 2 then some 1 else none
  childrenOf := fun n => if n = 0 then [1] else if n = 1 then [2] else []
  classesOf := fun _ => []
  tagOf := fun n => if n = 0 then "BODY" else if n = 1 then "TABLE" else "TBODY"
  attrOf := fun _ _ => none
  dataOf := fun _ _ => none
  allNodes := [0, 1, 2]
  body := 0
  height := 5
  nextFresh := 50

/-- C6 fixture: an idle instance managing the TBODY, pickup callback set. -/
def c6St : DMState where
  dom := c6Dom
  elements := [2]
  elementOrSelector := .selector "tbody"
  instanceId := "dm6"
  options := { defaults with
               callbacks := { pickup := some (), drag := none, drop := none,
                              beforeDrop := none } }
  boundAt := some 0
  draggedItem := none
  draggedItemData := none
  placeholder := none
  tagNameCopy := none
  lastMouseY := 0
  lastDraggedOver := none
  lastMouseDirection := none

/-- C7 fixture: a mid-gesture state whose dragged item carries the pickup
decoration and whose last pointer Y is 7. -/
def c7St : DMState := { gestureSt with
  lastMouseY := 7
  lastDraggedOver := some 1
  lastMouseDirection := some "down"
  dom := { gestureDom with
           classesOf := fun n =>
             if n = 3 then ["dma", "sortable-dragging"] else gestureDom.classesOf n } }

/-- C8 fixture: an idle instance (no dragged item, no placeholder) with the
default options, whose pickup.addClass is the non-empty default. -/
def c8St : DMState := { c2St with instanceId := "dm8" }

/-- C5 fixture: mid-gesture state whose beforeDrop returns exactly false. -/
def c5StVeto : DMState := { gestureSt with
  options := { defaults with
               callbacks := { pickup := none, drag := none, drop := some (),
                              beforeDrop := some (fun _ => .vBool false) } } }

/-- C5 fixture: mid-gesture state whose beforeDrop returns undefined. -/
def c5StGo : DMState := { gestureSt with
  options := { defaults with
               callbacks := { pickup := none, drag := none, drop := some (),
                              beforeDrop := some (fun _ => .vUndefined) } } }

/-- C10 fixture: the same gesture, constructed from an Element. -/
def c10St : DMState := { gestureSt with elementOrSelector := .element 1 "HTMLLIElement" }

/-- Junk default used only to name intermediate tick results totally. -/
def dummyPair : DMState × OverEffects := (c2St, { fired := false, placeholderPosition := "" })

/-- The state and effects after the first C4 tick. -/
def c4p1 : DMState × OverEffects := (handleDragOver c4St 2 1).toOption.getD dummyPair

/-- The state and effects after the second C4 tick. -/
def c4p2 : DMState × OverEffects := (handleDragOver c4p1.1 2 2).toOption.getD dummyPair

/-- The state and effects after a strictly-downward tick over element 2. -/
def c9p1 : DMState × OverEffects := (handleDragOver gestureSt 2 7).toOption.getD dummyPair

/-- `dropArgsOf` recomputes the five callback arguments of handleDrop. -/
def dropArgsOf (st : DMState) (dragged ph : NodeId) : DropArgs :=
  { dragged := dragged
    prevElem := prevElemSib st.dom ph
    draggedData := st.draggedItemData
    beforeData := (prevElemSib st.dom ph).map fun p => getItemData st.dom p st.options.dataAttributes
    nextElem := nextElemSib st.dom ph }

/-- Constructor arguments whose string conversion starts with "[object ":
an Element, a NodeList, or a non-empty Array of elements. -/
def isElementLike : ElementOrSelector → Bool
  | .element _ _ => true
  | .nodeList _ => true
  | .arrayOf (_ :: _) => true
  | _ => false

theorem nextAfter_cons_ne {a x : NodeId} (l : List NodeId) (h : a ≠ x) :
    nextAfter (a :: l) x = nextAfter l x := by
  cases l <;> simp [nextAfter, h]

theorem nextAfter_cons_self (x : NodeId) (l : List NodeId) :
    nextAfter (x :: l) x = l.head? := by
  cases l <;> simp [nextAfter]

theorem prevBefore_cons_ne {a x : NodeId} (l : List NodeId) (h : a ≠ x) :
    prevBefore (a :: l) x = prevGo a l x := by
  simp [prevBefore, h]

theorem nextAfter_mem {x r : NodeId} :
    ∀ {l : List NodeId}, nextAfter l x = some r → r ∈ l
  | [], h => by simp [nextAfter] at h
  | a :: t, h => by
    by_cases hax : a = x
    · subst hax
      rw [nextAfter_cons_self] at h
      cases t with
      | nil => simp at h
      | cons b t' => simp at h; simp [h]
    · rw [nextAfter_cons_ne _ hax] at h
      exact List.mem_cons_of_mem a (nextAfter_mem h)

theorem prevGo_mem {x p p0 : NodeId} :
    ∀ {l : List NodeId}, prevGo p0 l x = some p → p = p0 ∨ p ∈ l
  | [], h => by simp [prevGo] at h
  | a :: t, h => by
    by_cases hax : a = x
    · simp [prevGo, hax] at h
      exact Or.inl h.symm
    · simp only [prevGo, if_neg hax] at h
      rcases prevGo_mem h with h1 | h1
      · exact Or.inr (by simp [h1])
      · exact Or.inr (List.mem_cons_of_mem a h1)

theorem nextAfter_filter {n x r : NodeId} :
    ∀ {l : List NodeId}, nextAfter l x = some r → x ≠ n → r ≠ n →
      nextAfter (l.filter fun m => m != n) x = some r
  | [], h, _, _ => by simp [nextAfter] at h
  | a :: t, h, hx, hr => by
    by_cases hax : a = x
    · subst hax
      rw [nextAfter_cons_self] at h
      cases t with
      | nil => simp at h
      | cons b t' =>
        simp only [List.head?, Option.some.injEq] at h
        rw [List.filter_cons_of_pos (by simpa using hx),
            List.filter_cons_of_pos (by simpa [h] using hr),
            nextAfter_cons_self]
        simp [h]
    · rw [nextAfter_cons_ne _ hax] at h
      by_cases han : a = n
      · rw [List.filter_cons_of_neg (by simpa using han)]
        exact nextAfter_filter h hx hr
      · rw [List.filter_cons_of_pos (by simpa using han), nextAfter_cons_ne _ hax]
        exact nextAfter_filter h hx hr

theorem nextAfter_none_filter {n x : NodeId} :
    ∀ {l : List NodeId}, x ∈ l → nextAfter l x = none → x ≠ n →
      x ∈ (l.filter fun m => m != n) ∧ nextAfter (l.filter fun m => m != n) x = none
  | [], hm, _, _ => by simp at hm
  | a :: t, hm, h, hx => by
    by_cases hax : a = x
    · subst hax
      rw [nextAfter_cons_self] at h
      have ht : t = [] := by cases t <;> simp_all
      subst ht
      rw [List.filter_cons_of_pos (by simpa using hx)]
      exact ⟨by simp, by simp [nextAfter]⟩
    · have hm' : x ∈ t := by
        rcases List.mem_cons.mp hm with h1 | h1
        · exact absurd h1.symm hax
        · exact h1
      rw [nextAfter_cons_ne _ hax] at h
      by_cases han : a = n
      · rw [List.filter_cons_of_neg (by simpa using han)]
        exact nextAfter_none_filter hm' h hx
      · rw [List.filter_cons_of_pos (by simpa using han)]
        have ih := nextAfter_none_filter (n := n) hm' h hx
        exact ⟨List.mem_cons_of_mem a ih.1, by rw [nextAfter_cons_ne _ hax]; exact ih.2⟩

theorem nextAfter_append {x n : NodeId} :
    ∀ {l : List NodeId}, x ∈ l → nextAfter l x = none → nextAfter (l ++ [n]) x = some n
  | [], hm, _ => by simp at hm
  | a :: t, hm, h => by
    by_cases hax : a = x
    · subst hax
      rw [nextAfter_cons_self] at h
      have ht : t = [] := by cases t <;> simp_all
      subst ht
      simp [nextAfter]
    · have hm' : x ∈ t := by
        rcases List.mem_cons.mp hm with h1 | h1
        · exact absurd h1.symm hax
        · exact h1
      rw [nextAfter_cons_ne _ hax] at h
      rw [List.cons_append, nextAfter_cons_ne _ hax]
      exact nextAfter_append hm' h

theorem insertAt_cons_ne {a r : NodeId} (l : List NodeId) (n : NodeId) (h : a ≠ r) :
    insertAt (a :: l) n r = a :: insertAt l n r := by
  simp [insertAt, h]

theorem insertAt_cons_self (l : List NodeId) (n r : NodeId) :
    insertAt (r :: l) n r = n :: r :: l := by
  simp [insertAt]

theorem nextAfter_insertAt {x r n : NodeId} :
    ∀ {l : List NodeId}, l.Nodup → nextAfter l x = some r →
      nextAfter (insertAt l n r) x = some n
  | [], _, h => by simp [nextAfter] at h
  | a :: t, hnd, h => by
    by_cases hax : a = x
    · subst hax
      rw [nextAfter_cons_self] at h
      cases t with
      | nil => simp at h
      | cons b t' =>
        simp only [List.head?, Option.some.injEq] at h
        cases h
        have har : a ≠ r := by
          intro hh
          exact (List.nodup_cons.mp hnd).1 (hh ▸ List.mem_cons_self r t')
        rw [insertAt_cons_ne _ _ har, insertAt_cons_self, nextAfter_cons_self]
        simp
    · have har : a ≠ r := by
        intro hh
        subst hh
        rw [nextAfter_cons_ne _ hax] at h
        exact (List.nodup_cons.mp hnd).1 (nextAfter_mem h)
      rw [nextAfter_cons_ne _ hax] at h
      rw [insertAt_cons_ne _ _ har, nextAfter_cons_ne _ hax]
      exact nextAfter_insertAt (List.nodup_cons.mp hnd).2 h

theorem nextAfter_insertAt_self {r n : NodeId} :
    ∀ {l : List NodeId}, r ∈ l → n ∉ l → nextAfter (insertAt l n r) n = some r
  | [], hm, _ => by simp at hm
  | a :: t, hm, hn => by
    by_cases har : a = r
    · subst har
      rw [insertAt_cons_self, nextAfter_cons_self]
      simp
    · have hm' : r ∈ t := by
        rcases List.mem_cons.mp hm with h1 | h1
        · exact absurd h1.symm har
        · exact h1
      have han : a ≠ n := fun hh => hn (hh ▸ List.mem_cons_self a t)
      rw [insertAt_cons_ne _ _ har, nextAfter_cons_ne _ han]
      exact nextAfter_insertAt_self hm' (fun hh => hn (List.mem_cons_of_mem a hh))

theorem prevGo_insertAt {r n : NodeId} (p : NodeId) :
    ∀ {l : List NodeId}, r ∈ l → n ≠ r → prevGo p (insertAt l n r) r = some n
  | [], hm, _ => by simp at hm
  | a :: t, hm, hnr => by
    by_cases har : a = r
    · subst har
      rw [insertAt_cons_self]
      simp [prevGo, hnr]
    · have hm' : r ∈ t := by
        rcases List.mem_cons.mp hm with h1 | h1
        · exact absurd h1.symm har
        · exact h1
      rw [insertAt_cons_ne _ _ har]
      simp only [prevGo, if_neg har]
      exact prevGo_insertAt a hm' hnr

theorem prevBefore_insertAt {r n : NodeId} {l : List NodeId} (hm : r ∈ l) (hnr : n ≠ r) :
    prevBefore (insertAt l n r) r = some n := by
  cases l with
  | nil => simp at hm
  | cons a t =>
    by_cases har : a = r
    · subst har
      rw [insertAt_cons_self]
      simp [prevBefore, hnr, prevGo]
    · have hm' : r ∈ t := by
        rcases List.mem_cons.mp hm with h1 | h1
        · exact absurd h1.symm har
        · exact h1
      rw [insertAt_cons_ne _ _ har, prevBefore_cons_ne _ har]
      exact prevGo_insertAt a hm' hnr

theorem prevGo_nextAfter {x p : NodeId} :
    ∀ {l : List NodeId} {a : NodeId}, (a :: l).Nodup → prevGo a l x = some p →
      nextAfter (a :: l) p = some x
  | [], _, _, h => by simp [prevGo] at h
  | b :: t, a, hnd, h => by
    by_cases hbx : b = x
    · subst hbx
      simp [prevGo] at h
      subst h
      rw [nextAfter_cons_self]
      simp
    · simp only [prevGo, if_neg hbx] at h
      have hpm : p = b ∨ p ∈ t := prevGo_mem h
      have hap : a ≠ p := by
        intro hh
        subst hh
        rcases hpm with h1 | h1
        · exact (List.nodup_cons.mp hnd).1 (h1 ▸ List.mem_cons_self b t)
        · exact (List.nodup_cons.mp hnd).1 (List.mem_cons_of_mem b h1)
      rw [nextAfter_cons_ne _ hap]
      exact prevGo_nextAfter (List.nodup_cons.mp hnd).2 h

theorem prevBefore_nextAfter {x p : NodeId} {l : List NodeId}
    (hnd : l.Nodup) (h : prevBefore l x = some p) : nextAfter l p = some x := by
  cases l with
  | nil => simp [prevBefore] at h
  | cons a t =>
    by_cases hax : a = x
    · simp [prevBefore, hax] at h
    · rw [prevBefore_cons_ne _ hax] at h
      exact prevGo_nextAfter hnd h

theorem prevBefore_mem {x p : NodeId} {l : List NodeId} (h : prevBefore l x = some p) :
    p ∈ l := by
  cases l with
  | nil => simp [prevBefore] at h
  | cons a t =>
    by_cases hax : a = x
    · simp [prevBefore, hax] at h
    · rw [prevBefore_cons_ne _ hax] at h
      rcases prevGo_mem h with h1 | h1
      · simp [h1]
      · exact List.mem_cons_of_mem a h1

theorem setChildren_childrenOf_self (d : Dom) (p : NodeId) (l : List NodeId) :
    (d.setChildren p l).childrenOf p = l := by
  simp [Dom.setChildren]

theorem setChildren_parentOf (d : Dom) (p : NodeId) (l : List NodeId) :
    (d.setChildren p l).parentOf = d.parentOf := rfl

theorem setParent_parentOf_self (d : Dom) (n : NodeId) (po : Option NodeId) :
    (d.setParent n po).parentOf n = po := by
  simp [Dom.setParent]

theorem setParent_parentOf_ne (d : Dom) (n : NodeId) (po : Option NodeId) {m : NodeId}
    (h : m ≠ n) : (d.setParent n po).parentOf m = d.parentOf m := by
  simp [Dom.setParent, h]

theorem setParent_childrenOf (d : Dom) (n : NodeId) (po : Option NodeId) :
    (d.setParent n po).childrenOf = d.childrenOf := rfl

theorem removeFromParent_attached {d : Dom} {n p : NodeId} (h : d.parentOf n = some p) :
    d.removeFromParent n =
      (d.setChildren p ((d.childrenOf p).filter fun m => m != n)).setParent n none := by
  simp [Dom.removeFromParent, h]

theorem removeFromParent_detached {d : Dom} {n : NodeId} (h : d.parentOf n = none) :
    d.removeFromParent n = d := by
  simp [Dom.removeFromParent, h]

/-- The strictly-downward movement step: the placeholder ends up as the
element directly after the element below, whether or not it was already
attached there. -/
theorem dragOverMove_down {st : DMState} {cme ph par : NodeId} {y : Int}
    (hph : st.placeholder = some ph)
    (hpar : st.dom.parentOf cme = some par)
    (hmem : cme ∈ st.dom.childrenOf par)
    (hnd : (st.dom.childrenOf par).Nodup)
    (hcp : cme ≠ ph)
    (hattach : st.dom.parentOf ph = some par ∨
      (st.dom.parentOf ph = none ∧ ph ∉ st.dom.childrenOf par))
    (hy : st.lastMouseY < y) :
    ∃ dom1, dragOverMove st cme y = .ok dom1 ∧
      dom1.parentOf cme = some par ∧
      dom1.parentOf ph = some par ∧
      nextAfter (dom1.childrenOf par) cme = some ph := by
  have hsib : nextElemSib st.dom cme = nextAfter (st.dom.childrenOf par) cme := by
    simp [nextElemSib, hpar]
  by_cases hg : nextAfter (st.dom.childrenOf par) cme = some ph
  · -- already directly after the element below: the guard skips the insert
    have hpm : ph ∈ st.dom.childrenOf par := nextAfter_mem hg
    have hphpar : st.dom.parentOf ph = some par := by
      rcases hattach with h1 | h1
      · exact h1
      · exact absurd hpm h1.2
    refine ⟨st.dom, ?_, hpar, hphpar, hg⟩
    simp [dragOverMove, if_pos hy, hsib, hg, hph]
  · -- the guard passes and insertBefore runs
    have hgb : (nextElemSib st.dom cme != st.placeholder) = true := by
      simp [hsib, hph, hg]
    have hred : dragOverMove st cme y = st.dom.insertBefore par ph (nextElemSib st.dom cme) := by
      rw [dragOverMove, if_pos hy, if_pos hgb]
      simp only [hpar, hph]
    rw [hred, hsib]
    rcases hattach with hphpar | hdet
    · -- placeholder attached to the same parent: it is filtered out first
      cases hna : nextAfter (st.dom.childrenOf par) cme with
      | none =>
        simp only [Dom.insertBefore, removeFromParent_attached hphpar]
        refine ⟨_, rfl, ?_, ?_, ?_⟩
        · rw [setParent_parentOf_ne _ _ _ hcp, setChildren_parentOf,
              setParent_parentOf_ne _ _ _ hcp, setChildren_parentOf]
          exact hpar
        · rw [setParent_parentOf_self]
        · rw [setParent_childrenOf, setChildren_childrenOf_self, setParent_childrenOf,
              setChildren_childrenOf_self]
          have hx := nextAfter_none_filter (n := ph) hmem hna hcp
          exact nextAfter_append hx.1 hx.2
      | some r =>
        have hrph : r ≠ ph := fun hh => hg (hh ▸ hna)
        have hrmem : r ∈ (st.dom.childrenOf par).filter fun m => m != ph := by
          rw [List.mem_filter]
          exact ⟨nextAfter_mem hna, by simpa using hrph⟩
        simp only [Dom.insertBefore, removeFromParent_attached hphpar,
                   setParent_childrenOf, setChildren_childrenOf_self]
        rw [if_pos (by simpa using hrmem)]
        refine ⟨_, rfl, ?_, ?_, ?_⟩
        · rw [setParent_parentOf_ne _ _ _ hcp, setChildren_parentOf,
              setParent_parentOf_ne _ _ _ hcp, setChildren_parentOf]
          exact hpar
        · rw [setParent_parentOf_self]
        · rw [setParent_childrenOf, setChildren_childrenOf_self]
          exact nextAfter_insertAt (hnd.filter _) (nextAfter_filter hna hcp hrph)
    · -- placeholder detached: removal is a no-op
      cases hna : nextAfter (st.dom.childrenOf par) cme with
      | none =>
        simp only [Dom.insertBefore, removeFromParent_detached hdet.1]
        refine ⟨_, rfl, ?_, ?_, ?_⟩
        · rw [setParent_parentOf_ne _ _ _ hcp, setChildren_parentOf]
          exact hpar
        · rw [setParent_parentOf_self]
        · rw [setParent_childrenOf, setChildren_childrenOf_self]
          exact nextAfter_append hmem hna
      | some r =>
        have hrmem : r ∈ st.dom.childrenOf par := nextAfter_mem hna
        simp only [Dom.insertBefore, removeFromParent_detached hdet.1]
        rw [if_pos (by simpa using hrmem)]
        refine ⟨_, rfl, ?_, ?_, ?_⟩
        · rw [setParent_parentOf_ne _ _ _ hcp, setChildren_parentOf]
          exact hpar
        · rw [setParent_parentOf_self]
        · rw [setParent_childrenOf, setChildren_childrenOf_self]
          exact nextAfter_insertAt hnd hna

/-- The strictly-upward movement step: the placeholder ends up as the
element directly before the element below. -/
theorem dragOverMove_up {st : DMState} {cme ph par : NodeId} {y : Int}
    (hph : st.placeholder = some ph)
    (hpar : st.dom.parentOf cme = some par)
    (hmem : cme ∈ st.dom.childrenOf par)
    (hnd : (st.dom.childrenOf par).Nodup)
    (hcp : cme ≠ ph)
    (hattach : st.dom.parentOf ph = some par ∨
      (st.dom.parentOf ph = none ∧ ph ∉ st.dom.childrenOf par))
    (hy : y < st.lastMouseY) :
    ∃ dom1, dragOverMove st cme y = .ok dom1 ∧
      dom1.parentOf cme = some par ∧
      dom1.parentOf ph = some par ∧
      nextAfter (dom1.childrenOf par) ph = some cme ∧
      prevBefore (dom1.childrenOf par) cme = some ph := by
  have hyn : ¬(st.lastMouseY < y) := by omega
  have hsib : prevElemSib st.dom cme = prevBefore (st.dom.childrenOf par) cme := by
    simp [prevElemSib, hpar]
  by_cases hg : prevBefore (st.dom.childrenOf par) cme = some ph
  · -- already directly before the element below: the guard skips the insert
    have hpm : ph ∈ st.dom.childrenOf par := prevBefore_mem hg
    have hphpar : st.dom.parentOf ph = some par := by
      rcases hattach with h1 | h1
      · exact h1
      · exact absurd hpm h1.2
    refine ⟨st.dom, ?_, hpar, hphpar, prevBefore_nextAfter hnd hg, hg⟩
    simp [dragOverMove, if_neg hyn, if_pos hy, hsib, hg, hph]
  · -- the guard passes and insertBefore runs with the element below as reference
    have hgb : (prevElemSib st.dom cme != st.placeholder) = true := by
      simp [hsib, hph, hg]
    have hred : dragOverMove st cme y = st.dom.insertBefore par ph (some cme) := by
      rw [dragOverMove, if_neg hyn, if_pos hy, if_pos hgb]
      simp only [hpar, hph]
    rw [hred]
    rcases hattach with hphpar | hdet
    · have hcmem : cme ∈ (st.dom.childrenOf par).filter fun m => m != ph := by
        rw [List.mem_filter]
        exact ⟨hmem, by simpa using hcp⟩
      have hphout : ph ∉ (st.dom.childrenOf par).filter fun m => m != ph := by
        intro hh
        rcases List.mem_filter.mp hh with ⟨_, h2⟩
        simp at h2
      simp only [Dom.insertBefore, removeFromParent_attached hphpar,
                 setParent_childrenOf, setChildren_childrenOf_self]
      rw [if_pos (by simpa using hcmem)]
      refine ⟨_, rfl, ?_, ?_, ?_, ?_⟩
      · rw [setParent_parentOf_ne _ _ _ hcp, setChildren_parentOf,
            setParent_parentOf_ne _ _ _ hcp, setChildren_parentOf]
        exact hpar
      · rw [setParent_parentOf_self]
      · rw [setParent_childrenOf, setChildren_childrenOf_self]
        exact nextAfter_insertAt_self hcmem hphout
      · rw [setParent_childrenOf, setChildren_childrenOf_self]
        exact prevBefore_insertAt hcmem (fun hh => hcp hh.symm)
    · have hphout : ph ∉ st.dom.childrenOf par := hdet.2
      simp only [Dom.insertBefore, removeFromParent_detached hdet.1]
      rw [if_pos (by simpa using hmem)]
      refine ⟨_, rfl, ?_, ?_, ?_, ?_⟩
      · rw [setParent_parentOf_ne _ _ _ hcp, setChildren_parentOf]
        exact hpar
      · rw [setParent_parentOf_self]
      · rw [setParent_childrenOf, setChildren_childrenOf_self]
        exact nextAfter_insertAt_self hmem hphout
      · rw [setParent_childrenOf, setChildren_childrenOf_self]
        exact prevBefore_insertAt hmem (fun hh => hcp hh.symm)

/-- The unchanged-coordinate case: the movement block does nothing. -/
theorem dragOverMove_eq {st : DMState} {cme : NodeId} {y : Int}
    (hy : y = st.lastMouseY) : dragOverMove st cme y = .ok st.dom := by
  subst hy
  simp [dragOverMove]

theorem except_bind_ok {α β : Type} (a : α) (f : α → Except String β) :
    ((Except.ok a : Except String α) >>= f) = f a := rfl

theorem except_bind_err {α β : Type} (s : String) (f : α → Except String β) :
    ((Except.error s : Except String α) >>= f) = .error s := rfl

/-- Forward computation of a successful dragover tick. -/
theorem handleDragOver_eq {st : DMState} {t : NodeId} {y : Int} {cme ph : NodeId} {dom1 : Dom}
    (hr : resolveBelow st t = .ok (some cme))
    (hd : some cme ≠ st.draggedItem)
    (hp : some cme ≠ st.placeholder)
    (hph : st.placeholder = some ph)
    (hmv : dragOverMove st cme y = .ok dom1) :
    handleDragOver st t y = .ok
      ({ st with
         dom := dom1
         lastMouseY := y
         lastDraggedOver := some cme
         lastMouseDirection := some (inferDir st y) },
       { fired := (st.options.allowDuplicateCallbacks
            || !(some cme = st.lastDraggedOver : Bool)
            || !(some (inferDir st y) = st.lastMouseDirection : Bool))
            && st.options.callbacks.drag.isSome
         placeholderPosition := if prevElemSib dom1 ph = some cme then "top" else "bottom" }) := by
  rw [handleDragOver, hr, except_bind_ok]
  have hif : ¬(some cme = st.draggedItem ∨ some cme = st.placeholder) := by
    rintro (h1 | h1)
    · exact hd h1
    · exact hp h1
  dsimp only
  rw [if_neg hif, hmv, except_bind_ok, hph]

/-- A dragover tick propagates a movement failure. -/
theorem handleDragOver_err_move {st : DMState} {t : NodeId} {y : Int} {cme : NodeId} {s : String}
    (hr : resolveBelow st t = .ok (some cme))
    (hd : some cme ≠ st.draggedItem)
    (hp : some cme ≠ st.placeholder)
    (hmv : dragOverMove st cme y = .error s) :
    handleDragOver st t y = .error s := by
  rw [handleDragOver, hr, except_bind_ok]
  have hif : ¬(some cme = st.draggedItem ∨ some cme = st.placeholder) := by
    rintro (h1 | h1)
    · exact hd h1
    · exact hp h1
  dsimp only
  rw [if_neg hif, hmv, except_bind_err]

/-- A dragover tick with no placeholder dereferences null after the move. -/
theorem handleDragOver_err_ph {st : DMState} {t : NodeId} {y : Int} {cme : NodeId} {dom1 : Dom}
    (hr : resolveBelow st t = .ok (some cme))
    (hd : some cme ≠ st.draggedItem)
    (hp : some cme ≠ st.placeholder)
    (hph : st.placeholder = none)
    (hmv : dragOverMove st cme y = .ok dom1) :
    handleDragOver st t y = .error "TypeError" := by
  rw [handleDragOver, hr, except_bind_ok]
  have hif : ¬(some cme = st.draggedItem ∨ some cme = st.placeholder) := by
    rintro (h1 | h1)
    · exact hd h1
    · exact hp h1
  dsimp only
  rw [if_neg hif, hmv, except_bind_ok, hph]

/-- Inversion of a successful dragover tick: the stored fields and the
dispatch decision, in terms of the pre-tick state. -/
theorem handleDragOver_inv {st st' : DMState} {t : NodeId} {y : Int} {cme : NodeId}
    {e : OverEffects}
    (hr : resolveBelow st t = .ok (some cme))
    (hd : some cme ≠ st.draggedItem)
    (hp : some cme ≠ st.placeholder)
    (h : handleDragOver st t y = .ok (st', e)) :
    st'.options = st.options ∧ st'.draggedItem = st.draggedItem ∧
    st'.placeholder = st.placeholder ∧ st'.lastDraggedOver = some cme ∧
    st'.lastMouseDirection = some (inferDir st y) ∧ st'.lastMouseY = y ∧
    st'.elementOrSelector = st.elementOrSelector ∧ st'.instanceId = st.instanceId ∧
    e.fired = ((st.options.allowDuplicateCallbacks
        || !(some cme = st.lastDraggedOver : Bool)
        || !(some (inferDir st y) = st.lastMouseDirection : Bool))
        && st.options.callbacks.drag.isSome) := by
  cases hph : st.placeholder with
  | none =>
    cases hmv : dragOverMove st cme y with
    | error s => rw [handleDragOver_err_move hr hd hp hmv] at h; exact absurd h (by simp)
    | ok dom1 => rw [handleDragOver_err_ph hr hd hp hph hmv] at h; exact absurd h (by simp)
  | some ph =>
    cases hmv : dragOverMove st cme y with
    | error s => rw [handleDragOver_err_move hr hd hp hmv] at h; exact absurd h (by simp)
    | ok dom1 =>
      rw [handleDragOver_eq hr hd hp hph hmv] at h
      injection h with h2
      have hst := congrArg Prod.fst h2
      have heff := congrArg Prod.snd h2
      simp only at hst heff
      subst hst
      subst heff
      exact ⟨rfl, rfl, hph, rfl, rfl, rfl, rfl, rfl, rfl⟩

theorem classRemove_classesOf_self (d : Dom) (e : NodeId) (c : String) :
    (d.classRemove e c).classesOf e = (d.classesOf e).filter fun x => x != c := by
  simp [Dom.classRemove]

theorem foldl_classRemove_parentOf (toks : List String) :
    ∀ (d : Dom) (e : NodeId),
      (toks.foldl (fun d c => d.classRemove e c) d).parentOf = d.parentOf := by
  induction toks with
  | nil => intro d e; rfl
  | cons t ts ih => intro d e; rw [List.foldl_cons, ih]; rfl

theorem foldl_classRemove_childrenOf (toks : List String) :
    ∀ (d : Dom) (e : NodeId),
      (toks.foldl (fun d c => d.classRemove e c) d).childrenOf = d.childrenOf := by
  induction toks with
  | nil => intro d e; rfl
  | cons t ts ih => intro d e; rw [List.foldl_cons, ih]; rfl

theorem foldl_classRemove_classesOf_self (toks : List String) :
    ∀ (d : Dom) (e : NodeId),
      (toks.foldl (fun d c => d.classRemove e c) d).classesOf e =
        toks.foldl (fun l c => l.filter fun x => x != c) (d.classesOf e) := by
  induction toks with
  | nil => intro d e; rfl
  | cons t ts ih =>
    intro d e
    rw [List.foldl_cons, List.foldl_cons, ih, classRemove_classesOf_self]

theorem not_mem_foldl_filter {x : String} (toks : List String) :
    ∀ {l0 : List String}, x ∉ l0 →
      x ∉ toks.foldl (fun l c => l.filter fun y => y != c) l0 := by
  induction toks with
  | nil => intro l0 h; exact h
  | cons t ts ih =>
    intro l0 h
    rw [List.foldl_cons]
    exact ih fun hh => h (List.mem_filter.mp hh).1

theorem mem_foldl_filter_not_tok {c : String} (toks : List String) :
    ∀ {l0 : List String}, c ∈ toks →
      c ∉ toks.foldl (fun l t => l.filter fun y => y != t) l0 := by
  induction toks with
  | nil => intro l0 h; simp at h
  | cons t ts ih =>
    intro l0 h
    rw [List.foldl_cons]
    by_cases hct : c ∈ ts
    · exact ih hct
    · have hc : c = t := by
        rcases List.mem_cons.mp h with h1 | h1
        · exact h1
        · exact absurd h1 hct
      subst hc
      exact not_mem_foldl_filter ts (by simp)

/-- removeClasses on a present element always succeeds, never touches the
tree structure, and removes every token of a non-empty class string. -/
theorem removeClasses_spec (d : Dom) (e : NodeId) (cls : String) :
    ∃ d', removeClasses d (some e) cls = .ok d' ∧
      d'.parentOf = d.parentOf ∧ d'.childrenOf = d.childrenOf ∧
      (cls ≠ "" → ∀ c ∈ cls.splitOn " ", c ∉ d'.classesOf e) := by
  by_cases hc : cls = ""
  · refine ⟨d, ?_, rfl, rfl, fun h => absurd hc h⟩
    simp [removeClasses, hc]
  · refine ⟨(cls.splitOn " ").foldl (fun d c => d.classRemove e c) d, ?_, ?_, ?_, ?_⟩
    · simp [removeClasses, hc]
    · exact foldl_classRemove_parentOf _ _ _
    · exact foldl_classRemove_childrenOf _ _ _
    · intro _ c hcm
      rw [foldl_classRemove_classesOf_self]
      exact mem_foldl_filter_not_tok _ hcm

theorem removeFromParent_classesOf (d : Dom) (n : NodeId) :
    (d.removeFromParent n).classesOf = d.classesOf := by
  rw [Dom.removeFromParent]
  cases d.parentOf n <;> rfl

theorem parseSimple_object (rest : List Char) :
    parseSimple ('[' :: 'o' :: 'b' :: 'j' :: 'e' :: 'c' :: 't' :: ' ' :: rest) = none := by
  simp [parseSimple, parseIdent, takeIdent, isIdentStart, isIdentChar]

theorem parseCompound_object (rest : List Char) :
    parseCompound ('[' :: 'o' :: 'b' :: 'j' :: 'e' :: 'c' :: 't' :: ' ' :: rest) = none := by
  rw [parseCompound, parseSimple_object]

theorem parseSelListAux_object (fuel : Nat) (rest : List Char) :
    parseSelListAux fuel ('[' :: 'o' :: 'b' :: 'j' :: 'e' :: 'c' :: 't' :: ' ' :: rest) = none := by
  cases fuel with
  | zero => rfl
  | succ f => rw [parseSelListAux, parseCompound_object]

/-- Any selector string starting with "[object " is invalid. -/
theorem parseSel_starts_object {s : String} {rest : List Char}
    (h : s.data = '[' :: 'o' :: 'b' :: 'j' :: 'e' :: 'c' :: 't' :: ' ' :: rest) :
    parseSel s = none := by
  rw [parseSel, h]
  exact parseSelListAux_object _ _

theorem data_object_append (s : String) :
    ("[object " ++ s).data = '[' :: 'o' :: 'b' :: 'j' :: 'e' :: 'c' :: 't' :: ' ' :: s.data := by
  rw [String.data_append]
  rfl

/-- C1: the claim fails on the code. With pickup.parent = null, init binds
events before tagging any element with the instance marker, so the
common-ancestor walk (which requires the marker on every element) fails at
every ancestor at binding time; the constructed instance binds no listeners
(boundAt = none) even though the managed elements [1, 2] share the nearest
common ancestor 0, and after construction every element does carry the
marker, so re-running the walk afterwards would find ancestor 0. -/
theorem c1_inert_despite_common_ancestor :
    (construct c1Dom (.selector "li") defaults "dm1").map (fun s => s.boundAt) = .ok none ∧
    (construct c1Dom (.selector "li") defaults "dm1").map
      (fun s => (s.elements, s.options.pickup.parent,
                 (s.dom.classesOf 1).contains "dm1", (s.dom.classesOf 2).contains "dm1",
                 containsNode s.dom 0 1, containsNode s.dom 0 2,
                 gpeLoop s.dom s.elements s.instanceId s.dom.height (s.dom.parentOf 1)))
      = .ok ([1, 2], none, true, true, true, true, some 0) :=
  ⟨rfl, rfl⟩

/-- C2 counterexample: with no containment selector configured, element 1
carries no instance marker at all, yet isWithinParent answers true and
isDraggable accepts it — refuting "owned iff the element carries the
instance marker". -/
theorem c2_unmarked_element_owned :
    isWithinParent c2St 1 "pickup" = .ok true ∧
    isDraggable c2St 1 = .ok true ∧
    (c2St.dom.classesOf 1).contains c2St.instanceId = false ∧
    c2St.options.pickup.parent = none :=
  ⟨rfl, rfl, rfl, rfl⟩

/-- C2 amended: when no containment selector is configured, isWithinParent
returns true for every element, regardless of the instance marker; the
marker is not consulted on this path. -/
theorem c2_no_selector_owns_everything (st : DMState) (el : NodeId)
    (h : st.options.pickup.parent = none) :
    isWithinParent st el "pickup" = .ok true := by
  simp [isWithinParent, h]

/-- C2 witness. -/
theorem c2_no_selector_owns_everything_witness :
    isWithinParent c2St 1 "pickup" = .ok true :=
  c2_no_selector_owns_everything c2St 1 rfl

/-- C8: the claim fails on the code. A drop with no active dragged item is
indeed a safe no-op, but a drag-end arriving with no active gesture calls
removeClasses on a null dragged item with the non-empty default
pickup.addClass, dereferencing null.classList: an unhandled TypeError. -/
theorem c8_dragend_without_gesture_throws :
    handleDragEnd c8St = .error "TypeError" ∧
    handleDrop c8St = .ok (c8St, { beforeDropCalledWith := none, dropCalledWith := none }) ∧
    c8St.draggedItem = none ∧ c8St.placeholder = none ∧
    c8St.options.pickup.addClass = "sortable-dragging" :=
  ⟨rfl, rfl, rfl, rfl, rfl⟩

/-- C6: the claim fails on the code. Dragging the TBODY cancels the native
gesture (preventDefault) before any placeholder or pickup callback, but the
handler has already stored the dragged item and tag copy and returns
without clearing them: gesture state remains live (draggedItem = some 2,
tagNameCopy = some "TBODY"), and because the native drag never starts, no
drag-end ever clears it; a later drop event reaching the root then
dereferences the null placeholder and throws instead of no-opping. -/
theorem c6_invalid_tag_cancels_but_leaks_state :
    (handleDragStart c6St 2).map
      (fun p => (p.2.prevented, p.2.pickupFired, p.1.placeholder,
                 p.1.draggedItem, p.1.tagNameCopy))
      = .ok (true, false, none, some 2, some "TBODY") ∧
    ((handleDragStart c6St 2).bind fun p => handleDrop p.1) = .error "TypeError" ∧
    c6St.options.callbacks.pickup.isSome = true ∧
    upperStr (c6Dom.tagOf 2) = "TBODY" ∧ isValidSortableElement "TBODY" = false :=
  ⟨rfl, rfl, rfl, rfl, rfl⟩

/-- C3 counterexample: a tick whose vertical coordinate equals the stored
one infers direction "down" yet moves nothing: the placeholder 9 stays the
first child instead of ending up immediately after the element-below 2. -/
theorem c3_equal_coordinate_tick_keeps_placeholder_away :
    resolveBelow gestureSt 2 = .ok (some 2) ∧
    inferDir gestureSt 5 = "down" ∧
    gestureSt.placeholder = some 9 ∧
    some 2 ≠ gestureSt.draggedItem ∧
    (handleDragOver gestureSt 2 5).map
      (fun p => (p.1.dom.childrenOf 0, nextElemSib p.1.dom 2)) = .ok ([9, 1, 2, 3], some 3) :=
  ⟨rfl, rfl, rfl, by decide, rfl⟩

/-- C4 counterexample: three consecutive downward ticks over element 2.
Ticks two and three form a pair of consecutive ticks resolving the same
element-below with the same direction, yet the drag callback fires on
neither (zero dispatches across the pair, not exactly one). -/
theorem c4_identical_pair_dispatches_zero :
    ((handleDragOver c4St 2 1).bind fun p1 =>
     (handleDragOver p1.1 2 2).bind fun p2 =>
     (handleDragOver p2.1 2 3).map fun p3 =>
       (resolveBelow p1.1 2, inferDir p1.1 2, resolveBelow p2.1 2, inferDir p2.1 3,
        p2.2.fired, p3.2.fired))
    = .ok (.ok (some 2), "down", .ok (some 2), "down", false, false) ∧
    c4St.options.allowDuplicateCallbacks = false ∧
    c4St.options.callbacks.drag.isSome = true :=
  ⟨rfl, rfl, rfl⟩

/-- C7 counterexample: drag-end clears the other gesture fields but leaves
the last pointer Y at its mid-gesture value 7 instead of clearing it. -/
theorem c7_lastMouseY_survives_dragend :
    c7St.lastMouseY = 7 ∧ c7St.draggedItem = some 3 ∧
    (handleDragEnd c7St).map
      (fun s => (s.lastMouseY, s.draggedItem, s.draggedItemData, s.placeholder,
                 s.tagNameCopy, s.lastDraggedOver, s.lastMouseDirection))
      = .ok (7, none, none, none, none, none, none) :=
  ⟨rfl, rfl, rfl⟩

/-- C9 counterexample: a first tick with unchanged Y (direction "down", no
movement) followed by a strictly-downward tick over the same element-below
with the same direction "down": the second run mutates the DOM, moving the
placeholder from head position to directly after element 2. -/
theorem c9_second_identical_tick_mutates :
    ((handleDragOver gestureSt 2 5).bind fun p1 =>
     (handleDragOver p1.1 2 6).map fun p2 =>
       (resolveBelow gestureSt 2, inferDir gestureSt 5, resolveBelow p1.1 2, inferDir p1.1 6,
        p1.1.dom.childrenOf 0, p2.1.dom.childrenOf 0))
    = .ok (.ok (some 2), "down", .ok (some 2), "down", [9, 1, 2, 3], [1, 2, 9, 3]) :=
  rfl

/-- C3 amended: on a tick whose element-below resolves to a managed element
distinct from the dragged item and the placeholder, a strictly larger
vertical coordinate (direction "down") leaves the placeholder immediately
following the element-below, a strictly smaller one (direction "up") leaves
it immediately preceding, and an unchanged coordinate reports direction
"down" but does not move the placeholder at all. -/
theorem c3_strict_tick_positions_placeholder {st : DMState} {t cme ph par : NodeId} {y : Int}
    (hr : resolveBelow st t = .ok (some cme))
    (hd : some cme ≠ st.draggedItem)
    (hp : some cme ≠ st.placeholder)
    (hph : st.placeholder = some ph)
    (hpar : st.dom.parentOf cme = some par)
    (hmem : cme ∈ st.dom.childrenOf par)
    (hnd : (st.dom.childrenOf par).Nodup)
    (hattach : st.dom.parentOf ph = some par ∨
      (st.dom.parentOf ph = none ∧ ph ∉ st.dom.childrenOf par)) :
    ∃ st1 e1, handleDragOver st t y = .ok (st1, e1) ∧
      (st.lastMouseY < y → inferDir st y = "down" ∧ nextElemSib st1.dom cme = some ph) ∧
      (y < st.lastMouseY → inferDir st y = "up" ∧ nextElemSib st1.dom ph = some cme ∧
        prevElemSib st1.dom cme = some ph) ∧
      (y = st.lastMouseY → inferDir st y = "down" ∧ st1.dom = st.dom) := by
  have hcp : cme ≠ ph := fun hh => hp (by rw [hph, hh])
  rcases lt_trichotomy st.lastMouseY y with hlt | heq | hgt
  · obtain ⟨dom1, hmv, hc1, hc2, hc3⟩ := dragOverMove_down hph hpar hmem hnd hcp hattach hlt
    refine ⟨_, _, handleDragOver_eq hr hd hp hph hmv, ?_, ?_, ?_⟩
    · intro _
      refine ⟨by simp [inferDir]; omega, ?_⟩
      simp only [nextElemSib, hc1]
      exact hc3
    · intro h1
      exact absurd h1 (by omega)
    · intro h1
      exact absurd h1 (by omega)
  · have hmv := @dragOverMove_eq st cme y heq.symm
    refine ⟨_, _, handleDragOver_eq hr hd hp hph hmv, ?_, ?_, ?_⟩
    · intro h1
      exact absurd h1 (by omega)
    · intro h1
      exact absurd h1 (by omega)
    · intro _
      exact ⟨by simp [inferDir]; omega, rfl⟩
  · obtain ⟨dom1, hmv, hc1, hc2, hc3, hc4⟩ := dragOverMove_up hph hpar hmem hnd hcp hattach hgt
    refine ⟨_, _, handleDragOver_eq hr hd hp hph hmv, ?_, ?_, ?_⟩
    · intro h1
      exact absurd h1 (by omega)
    · intro _
      refine ⟨by simp [inferDir, hgt], ?_, ?_⟩
      · simp only [nextElemSib, hc2]
        exact hc3
      · simp only [prevElemSib, hc1]
        exact hc4
    · intro h1
      exact absurd h1 (by omega)

/-- C3 witness: a strictly-downward tick at coordinate 7 over element 2
leaves the placeholder 9 immediately after it. -/
theorem c3_strict_tick_positions_placeholder_witness :
    ∃ st1 e1, handleDragOver gestureSt 2 7 = .ok (st1, e1) ∧
      nextElemSib st1.dom 2 = some 9 := by
  obtain ⟨st1, e1, hrun, hdown, _, _⟩ :=
    @c3_strict_tick_positions_placeholder gestureSt 2 2 9 0 7
      rfl (by decide) (by decide) rfl rfl (by decide) (by decide) (Or.inl rfl)
  exact ⟨st1, e1, hrun, (hdown (by decide)).2⟩

/-- C4 amended: with duplicate suppression on, the drag callback never
fires on the second of two consecutive ticks resolving the same
element-below with the same inferred direction (so at most one dispatch
across such a pair, and zero when the first tick also repeated the
previous stored values); a tick fires exactly when a drag callback is
configured and (allowDuplicateCallbacks, or the element-below differs from
the previous tick's stored element-below, or the direction differs from
the previous tick's stored direction). -/
theorem c4_second_identical_tick_never_fires {st st1 st2 : DMState} {t1 t2 cme : NodeId}
    {y1 y2 : Int} {e1 e2 : OverEffects}
    (hdup : st.options.allowDuplicateCallbacks = false)
    (hr1 : resolveBelow st t1 = .ok (some cme))
    (hd1 : some cme ≠ st.draggedItem)
    (hp1 : some cme ≠ st.placeholder)
    (h1 : handleDragOver st t1 y1 = .ok (st1, e1))
    (hr2 : resolveBelow st1 t2 = .ok (some cme))
    (hd2 : some cme ≠ st1.draggedItem)
    (hp2 : some cme ≠ st1.placeholder)
    (h2 : handleDragOver st1 t2 y2 = .ok (st2, e2))
    (hdir : inferDir st1 y2 = inferDir st y1) :
    e2.fired = false ∧
    e1.fired = ((st.options.allowDuplicateCallbacks
        || !(some cme = st.lastDraggedOver : Bool)
        || !(some (inferDir st y1) = st.lastMouseDirection : Bool))
        && st.options.callbacks.drag.isSome) := by
  obtain ⟨hopt, _, _, hlast, hldir, _, _, _, hf1⟩ := handleDragOver_inv hr1 hd1 hp1 h1
  obtain ⟨_, _, _, _, _, _, _, _, hf2⟩ := handleDragOver_inv hr2 hd2 hp2 h2
  refine ⟨?_, hf1⟩
  rw [hf2, hopt, hdup, hlast, hdir, hldir]
  simp

/-- C4 witness: in the three-tick run, the second tick (same element-below
2, same direction as the first) does not fire. -/
theorem c4_second_identical_tick_never_fires_witness : c4p2.2.fired = false := by
  have h := @c4_second_identical_tick_never_fires c4St c4p1.1 c4p2.1 2 2 2 1 2
    c4p1.2 c4p2.2
    rfl rfl (by decide) (by decide) rfl rfl (by decide) (by decide) rfl rfl
  exact h.1

/-- C9 amended: after a tick whose vertical comparison is strict, an
immediately following tick resolving the same element-below with the same
inferred direction performs no DOM mutation (the document component of the
state is unchanged); only a first tick with unchanged Y, which reports
"down" without establishing the placeholder position, escapes this. -/
theorem c9_idempotent_after_strict_tick {st st1 : DMState} {t1 t2 cme ph par : NodeId}
    {y1 y2 : Int} {e1 : OverEffects}
    (hr1 : resolveBelow st t1 = .ok (some cme))
    (hd : some cme ≠ st.draggedItem)
    (hp : some cme ≠ st.placeholder)
    (hph : st.placeholder = some ph)
    (hpar : st.dom.parentOf cme = some par)
    (hmem : cme ∈ st.dom.childrenOf par)
    (hnd : (st.dom.childrenOf par).Nodup)
    (hattach : st.dom.parentOf ph = some par ∨
      (st.dom.parentOf ph = none ∧ ph ∉ st.dom.childrenOf par))
    (hstrict : y1 ≠ st.lastMouseY)
    (h1 : handleDragOver st t1 y1 = .ok (st1, e1))
    (hr2 : resolveBelow st1 t2 = .ok (some cme))
    (hdir : inferDir st1 y2 = inferDir st y1) :
    ∃ st2 e2, handleDragOver st1 t2 y2 = .ok (st2, e2) ∧ st2.dom = st1.dom := by
  have hcp : cme ≠ ph := fun hh => hp (by rw [hph, hh])
  rcases lt_or_gt_of_ne hstrict with hgt | hlt
  · -- first tick strictly upward
    obtain ⟨dom1, hmv, hc1, hc2, hc3, hc4⟩ := dragOverMove_up hph hpar hmem hnd hcp hattach hgt
    rw [handleDragOver_eq hr1 hd hp hph hmv] at h1
    injection h1 with h2
    have hst := congrArg Prod.fst h2
    simp only at hst
    have hdom : st1.dom = dom1 := by rw [← hst]
    have hph1 : st1.placeholder = some ph := by rw [← hst]; exact hph
    have hdi1 : st1.draggedItem = st.draggedItem := by rw [← hst]
    have hlmy : st1.lastMouseY = y1 := by rw [← hst]
    have hdir1 : inferDir st y1 = "up" := by simp [inferDir, hgt]
    rw [hdir1] at hdir
    have hy2 : y2 < y1 := by
      by_contra hc
      simp [inferDir, hlmy, hc] at hdir
    have hpsib : prevElemSib st1.dom cme = some ph := by
      rw [hdom]
      simp only [prevElemSib, hc1]
      exact hc4
    have hd2 : some cme ≠ st1.draggedItem := by rw [hdi1]; exact hd
    have hp2 : some cme ≠ st1.placeholder := by
      rw [hph1]
      exact fun hh => hcp (by injection hh)
    have hmv2 : dragOverMove st1 cme y2 = .ok st1.dom := by
      simp [dragOverMove, hlmy, show ¬((y1 : Int) < y2) from by omega, hy2, hpsib, hph1]
    exact ⟨_, _, handleDragOver_eq hr2 hd2 hp2 hph1 hmv2, rfl⟩
  · -- first tick strictly downward
    obtain ⟨dom1, hmv, hc1, hc2, hc3⟩ := dragOverMove_down hph hpar hmem hnd hcp hattach hlt
    rw [handleDragOver_eq hr1 hd hp hph hmv] at h1
    injection h1 with h2
    have hst := congrArg Prod.fst h2
    simp only at hst
    have hdom : st1.dom = dom1 := by rw [← hst]
    have hph1 : st1.placeholder = some ph := by rw [← hst]; exact hph
    have hdi1 : st1.draggedItem = st.draggedItem := by rw [← hst]
    have hlmy : st1.lastMouseY = y1 := by rw [← hst]
    have hdir1 : inferDir st y1 = "down" := by
      simp [inferDir, show ¬(y1 < st.lastMouseY) from by omega]
    rw [hdir1] at hdir
    have hy2 : ¬(y2 < y1) := by
      by_contra hc
      simp [inferDir, hlmy, hc] at hdir
    have hsib : nextElemSib st1.dom cme = some ph := by
      rw [hdom]
      simp only [nextElemSib, hc1]
      exact hc3
    have hd2 : some cme ≠ st1.draggedItem := by rw [hdi1]; exact hd
    have hp2 : some cme ≠ st1.placeholder := by
      rw [hph1]
      exact fun hh => hcp (by injection hh)
    have hmv2 : dragOverMove st1 cme y2 = .ok st1.dom := by
      rcases lt_or_eq_of_le (le_of_not_lt hy2) with hlt2 | heq2
      · simp [dragOverMove, hlmy, hlt2, hsib, hph1]
      · exact dragOverMove_eq (heq2.symm.trans hlmy.symm)
    exact ⟨_, _, handleDragOver_eq hr2 hd2 hp2 hph1 hmv2, rfl⟩

/-- C9 witness: a strictly-downward tick at Y 7 followed by a tick at Y 8
over the same element 2 (same direction) leaves the document unchanged. -/
theorem c9_idempotent_after_strict_tick_witness :
    ∃ st2 e2, handleDragOver c9p1.1 2 8 = .ok (st2, e2) ∧ st2.dom = c9p1.1.dom := by
  exact @c9_idempotent_after_strict_tick gestureSt c9p1.1 2 2 2 9 0 7 8 c9p1.2
    rfl (by decide) (by decide) rfl rfl (by decide) (by decide) (Or.inl rfl)
    (by decide) rfl rfl rfl

/-- C7 amended: on a gesture with an active dragged item, drag-end clears
the dragged item, its data record, the placeholder, the tag copy, the last
element below and the last direction, removes every pickup-decoration class
token from the dragged element, and detaches the placeholder if it was
attached — but the last pointer Y is left untouched (it is not cleared). -/
theorem c7_dragend_clears_fields_except_lastMouseY {st : DMState} {d : NodeId}
    (hd : st.draggedItem = some d) :
    ∃ st', handleDragEnd st = .ok st' ∧
      st'.draggedItem = none ∧ st'.draggedItemData = none ∧ st'.placeholder = none ∧
      st'.tagNameCopy = none ∧ st'.lastDraggedOver = none ∧ st'.lastMouseDirection = none ∧
      st'.lastMouseY = st.lastMouseY ∧
      (st.options.pickup.addClass ≠ "" →
        ∀ c ∈ st.options.pickup.addClass.splitOn " ", c ∉ st'.dom.classesOf d) ∧
      (∀ ph p, st.placeholder = some ph → st.dom.parentOf ph = some p →
        st'.dom.parentOf ph = none ∧ ph ∉ st'.dom.childrenOf p) := by
  obtain ⟨dom1, hrc, hpar1, hch1, hcls1⟩ := removeClasses_spec st.dom d st.options.pickup.addClass
  rw [handleDragEnd, hd, hrc, except_bind_ok]
  refine ⟨_, rfl, rfl, rfl, rfl, rfl, rfl, rfl, rfl, ?_, ?_⟩
  · intro hne c hcm
    have hx := hcls1 hne c hcm
    cases hphq : st.placeholder with
    | none => simpa using hx
    | some ph =>
      cases hpq : dom1.parentOf ph with
      | none => simpa [hpq] using hx
      | some p => simpa [hpq, removeFromParent_classesOf] using hx
  · intro ph p hphq hpp
    have hpq : dom1.parentOf ph = some p := by rw [hpar1]; exact hpp
    simp only [hphq, hpq]
    rw [removeFromParent_attached hpq]
    refine ⟨by rw [setParent_parentOf_self], ?_⟩
    rw [setParent_childrenOf, setChildren_childrenOf_self]
    intro hh
    simpa using (List.mem_filter.mp hh).2

/-- C7 witness. -/
theorem c7_dragend_clears_fields_except_lastMouseY_witness :
    ∃ st', handleDragEnd c7St = .ok st' ∧
      st'.draggedItem = none ∧ st'.draggedItemData = none ∧ st'.placeholder = none ∧
      st'.tagNameCopy = none ∧ st'.lastDraggedOver = none ∧ st'.lastMouseDirection = none ∧
      st'.lastMouseY = c7St.lastMouseY ∧
      (c7St.options.pickup.addClass ≠ "" →
        ∀ c ∈ c7St.options.pickup.addClass.splitOn " ", c ∉ st'.dom.classesOf 3) ∧
      (∀ ph p, c7St.placeholder = some ph → c7St.dom.parentOf ph = some p →
        st'.dom.parentOf ph = none ∧ ph ∉ st'.dom.childrenOf p) :=
  @c7_dragend_clears_fields_except_lastMouseY c7St 3 rfl

/-- C5: on a drop with an active dragged item and an attached placeholder,
a configured beforeDrop returning exactly false aborts the drop (state and
document unchanged, drop not invoked), while any other return value — or no
beforeDrop at all — moves the dragged element immediately before the
placeholder and invokes drop (when configured) with the same five-argument
tuple beforeDrop received. -/
theorem c5_beforeDrop_gates_drop {st : DMState} {dragged ph par : NodeId}
    (hd : st.draggedItem = some dragged)
    (hph : st.placeholder = some ph)
    (hpar : st.dom.parentOf ph = some par)
    (hmem : ph ∈ st.dom.childrenOf par)
    (hne : dragged ≠ ph)
    (hdri : st.dom.parentOf dragged = some par ∨ dragged ∉ st.dom.childrenOf par) :
    (∀ f, st.options.callbacks.beforeDrop = some f →
      (f (dropArgsOf st dragged ph) = JsVal.vBool false →
        handleDrop st = .ok (st,
          { beforeDropCalledWith := some (dropArgsOf st dragged ph),
            dropCalledWith := none })) ∧
      (f (dropArgsOf st dragged ph) ≠ JsVal.vBool false →
        ∃ dom1, handleDrop st = .ok ({ st with dom := dom1 },
          { beforeDropCalledWith := some (dropArgsOf st dragged ph),
            dropCalledWith := if st.options.callbacks.drop.isSome
                              then some (dropArgsOf st dragged ph) else none }) ∧
          nextElemSib dom1 dragged = some ph)) ∧
    (st.options.callbacks.beforeDrop = none →
      ∃ dom1, handleDrop st = .ok ({ st with dom := dom1 },
        { beforeDropCalledWith := none,
          dropCalledWith := if st.options.callbacks.drop.isSome
                            then some (dropArgsOf st dragged ph) else none }) ∧
        nextElemSib dom1 dragged = some ph) := by
  have hphd : (ph != dragged) = true := by simpa using fun hh => hne hh.symm
  have hAB : ph ∈ (st.dom.removeFromParent dragged).childrenOf par ∧
      dragged ∉ (st.dom.removeFromParent dragged).childrenOf par := by
    rcases hdri with hq | hnm
    · rw [removeFromParent_attached hq, setParent_childrenOf, setChildren_childrenOf_self]
      refine ⟨List.mem_filter.mpr ⟨hmem, hphd⟩, fun hh => ?_⟩
      simpa using (List.mem_filter.mp hh).2
    · cases hq : st.dom.parentOf dragged with
      | none =>
        rw [removeFromParent_detached hq]
        exact ⟨hmem, hnm⟩
      | some q =>
        rw [removeFromParent_attached hq]
        by_cases hpq : par = q
        · subst hpq
          rw [setParent_childrenOf, setChildren_childrenOf_self]
          refine ⟨List.mem_filter.mpr ⟨hmem, hphd⟩, fun hh => ?_⟩
          simpa using (List.mem_filter.mp hh).2
        · have hsame : ((st.dom.setChildren q ((st.dom.childrenOf q).filter
              fun m => m != dragged)).setParent dragged none).childrenOf par
                = st.dom.childrenOf par := by
            rw [setParent_childrenOf]
            simp [Dom.setChildren, hpq]
          rw [hsame]
          exact ⟨hmem, hnm⟩
  have hinsert : ∃ dom1, st.dom.insertBefore par dragged (some ph) = .ok dom1 ∧
      nextElemSib dom1 dragged = some ph := by
    simp only [Dom.insertBefore]
    rw [if_pos (by simpa using hAB.1)]
    refine ⟨_, rfl, ?_⟩
    simp only [nextElemSib, setParent_parentOf_self, setParent_childrenOf,
               setChildren_childrenOf_self]
    exact nextAfter_insertAt_self hAB.1 hAB.2
  obtain ⟨dom1, hib, hnext⟩ := hinsert
  constructor
  · intro f hf
    constructor
    · intro hveto
      have hv : decide (f (dropArgsOf st dragged ph) = JsVal.vBool false) = true :=
        decide_eq_true hveto
      simp only [dropArgsOf] at hv
      rw [handleDrop, hd, hph, hf]
      dsimp only
      rw [if_pos hv]
      rfl
    · intro hveto
      have hnv : ¬(decide (f (dropArgsOf st dragged ph) = JsVal.vBool false) = true) := by
        simpa using hveto
      simp only [dropArgsOf] at hnv
      refine ⟨dom1, ?_, hnext⟩
      rw [handleDrop, hd, hph, hf]
      dsimp only
      rw [if_neg hnv, hpar]
      dsimp only
      rw [hib, except_bind_ok]
      rfl
  · intro hf
    refine ⟨dom1, ?_, hnext⟩
    rw [handleDrop, hd, hph, hf]
    dsimp only
    rw [if_neg Bool.false_ne_true, hpar]
    dsimp only
    rw [hib, except_bind_ok]
    rfl

/-- C5 witness: with a beforeDrop returning exactly false, the drop aborts
with no state change and no drop dispatch. -/
theorem c5_beforeDrop_gates_drop_witness :
    handleDrop c5StVeto = .ok (c5StVeto,
      { beforeDropCalledWith := some (dropArgsOf c5StVeto 3 9), dropCalledWith := none }) := by
  have h := @c5_beforeDrop_gates_drop c5StVeto 3 9 0
    rfl rfl rfl (by decide) (by decide) (Or.inl rfl)
  exact (h.1 _ rfl).1 rfl

/-- Every element-like constructor argument stringifies to "[object "
followed by something. -/
theorem jsToString_object {eos : ElementOrSelector} (h : isElementLike eos = true) :
    ∃ s1, jsToString eos = "[object " ++ s1 := by
  cases eos with
  | selector s => simp [isElementLike] at h
  | element e iface => exact ⟨iface ++ "]", String.append_assoc _ _ _⟩
  | nodeList l => exact ⟨"NodeList]", rfl⟩
  | arrayOf l =>
    cases l with
    | nil => simp [isElementLike] at h
    | cons p ps =>
      cases ps with
      | nil => exact ⟨p.2 ++ "]", by simp [jsToString, joinComma, String.append_assoc]⟩
      | cons q qs =>
        exact ⟨p.2 ++ ("]," ++ joinComma (("[object " ++ (q.2 ++ "]")) ::
                 qs.map fun r => "[object " ++ (r.2 ++ "]"))),
               by simp [jsToString, joinComma, String.append_assoc]⟩

/-- The interpolated selector of such an instance is unparsable. -/
theorem interpSel_object {st : DMState} {s1 : String}
    (h : jsToString st.elementOrSelector = "[object " ++ s1) :
    parseSel (interpSel st) = none := by
  have hi : interpSel st = "[object " ++ (s1 ++ ("." ++ st.instanceId)) := by
    rw [interpSel, h, String.append_assoc, String.append_assoc]
  exact parseSel_starts_object (by rw [hi]; exact data_object_append _)

/-- C10: continuous positioning requires a selector-string construction.
For every instance built from an Element, a NodeList, or a non-empty Array
of elements, the interpolated `elementOrSelector.instanceId` selector
stringifies the argument to "[object ...]", which is not a valid selector,
so every dragover tick throws a SyntaxError before any DOM mutation — the
placeholder is never repositioned. An empty Array yields an empty managed
set, and (absent an explicit pickup parent) the instance binds no
listeners at all. -/
theorem c10_nonstring_argument_breaks_positioning :
    (∀ (st : DMState) (t : NodeId) (y : Int), isElementLike st.elementOrSelector = true →
      handleDragOver st t y = .error "SyntaxError") ∧
    (∀ (d : Dom) (opts : Options) (iid : String), opts.pickup.parent = none →
      (construct d (.arrayOf []) opts iid).map (fun s => s.boundAt) = .ok none) := by
  constructor
  · intro st t y h
    obtain ⟨s1, hjs⟩ := jsToString_object h
    have hres : resolveBelow st t = .error "SyntaxError" := by
      rw [resolveBelow, interpSel_object hjs]
    rw [handleDragOver, hres, except_bind_err]
  · intro d opts iid h
    rw [construct]
    dsimp only [resolveElements]
    rw [except_bind_ok, init, bindEvents, getParentElement]
    dsimp only
    rw [h]
    rfl

/-- C10 witness: an instance constructed from an Element throws on every
positioning tick. -/
theorem c10_nonstring_argument_breaks_positioning_witness :
    handleDragOver c10St 2 7 = .error "SyntaxError" :=
  c10_nonstring_argument_breaks_positioning.1 c10St 2 7 rfl
